import Mathlib

/-!
Verification of the TBG ckpool infrastructure subsystems.

Shallow embedding of the C sources under src/services/ckpool/src/:
input_validation.c, memory_pool.c, rate_limit.c, event_ring.c,
tbg_relay_server.c and tbg_relay_client.c. C strings are modelled as
lists of byte values (their contents up to, and not including, the NUL
terminator); machine integers are modelled as Nat or Int, with an
explicit reduction modulo 2^32 or 2^64 at the points where the C code
performs unsigned wrap-around that the statements depend on. Plain
`int` counters whose two's-complement wrap at plus or minus 2^31 is
never approached by any statement in this file are modelled as Int.
Heap allocation (malloc, calloc, realloc, aligned_alloc) is assumed to
succeed except where a function's own logic refuses to allocate.
-/

namespace Tbg

/-! ## Byte helpers -/

/-- C `tolower` on a byte: lower-cases the ASCII letters `A`..`Z`. -/
def lowerByte (c : Nat) : Nat :=
  if 65 ≤ c ∧ c ≤ 90 then c + 32 else c

/-! ## input_validation.c -/

/-- The bech32 data alphabet `qpzry9x8gf2tvdw0s3jn54khce6mua7l` as byte values
(input_validation.c line 210). -/
def bech32Alphabet : List Nat :=
  ("qpzry9x8gf2tvdw0s3jn54khce6mua7l".toList).map Char.toNat

/-- The base58 alphabet `BASE58_CHARS` (input_validation.c lines 134-135). -/
def base58Chars : List Nat :=
  ("123456789ABCDEFGHJKLMNPQRSTUVWXYZabcdefghijkmnopqrstuvwxyz".toList).map Char.toNat

/-- Result of `strncasecmp(address, lit, 3) == 0` for a 3-byte lower-case
literal `lit`: the first three bytes match case-insensitively. -/
def strncasecmp3 (address : List Nat) (lit : List Nat) : Bool :=
  (address.take 3).map lowerByte == lit

/-- `is_base58_char` (input_validation.c lines 137-140): membership in
`BASE58_CHARS` via `strchr`. -/
def is_base58_char (c : Nat) : Bool :=
  base58Chars.contains c

/-- `validate_base58_address` (input_validation.c lines 149-171): length
25..34 and every character in the base58 alphabet. -/
def validate_base58_address (address : List Nat) : Bool :=
  let len := address.length
  if len < 25 ∨ 34 < len then false
  else address.all (fun c => is_base58_char c)

/-- `validate_bech32_address` (input_validation.c lines 178-215): length
14..74, prefix `bc1` or `tb1` case-insensitively, fourth character `q` or
`p` after `tolower`, and every character from the fifth on in the bech32
alphabet after `tolower`. -/
def validate_bech32_address (address : List Nat) : Bool :=
  let len := address.length
  if len < 14 ∨ 74 < len then false
  else if ¬(strncasecmp3 address [98, 99, 49] = true ∨
            strncasecmp3 address [116, 98, 49] = true) then false
  else if ¬(lowerByte (address.getD 3 0) = 113 ∨
            lowerByte (address.getD 3 0) = 112) then false
  else (address.drop 4).all (fun c => bech32Alphabet.contains (lowerByte c))

/-- `tbg_validate_btc_address` (input_validation.c lines 217-240): reject
empty or over-90-byte input, dispatch on the first character to the base58
check (`1`, `3`, `m`, `n`, `2`) or, on a case-insensitive `bc1`/`tb1`
prefix, to the bech32 shape check. -/
def tbg_validate_btc_address (address : List Nat) : Bool :=
  let len := address.length
  if len = 0 ∨ 90 < len then false
  else if address.getD 0 0 = 49 ∨ address.getD 0 0 = 51 ∨
          address.getD 0 0 = 109 ∨ address.getD 0 0 = 110 ∨
          address.getD 0 0 = 50 then
    validate_base58_address address
  else if strncasecmp3 address [98, 99, 49] = true ∨
          strncasecmp3 address [116, 98, 49] = true then
    validate_bech32_address address
  else false

/-- A valid BIP173 P2WPKH address with its fourth character upper-cased:
mixed case in a single string. -/
def mixedCaseAddr : List Nat :=
  ("bc1Qw508d6qejxtdg4y5r3zarvary0c5xw7kv8f3t4".toList).map Char.toNat

/-! ## memory_pool.c

The pool counters are C `int`s, modelled as `Int` (their values stay far
from the two's-complement bounds in every statement below). The intrusive
free list always holds exactly `total_free` items, so the C test
`if (pool->free_list)` is modelled as `0 < total_free`. Three ghost fields
track where live items came from; they influence no counter. Heap
allocation is assumed to succeed, so `pool_grow` fails exactly when its
clamped count is not positive. -/

/-- Origin of an item handed out by `tbg_pool_alloc`: popped from the free
list / a fresh slab, or produced by the direct `aligned_alloc` fallback
(memory_pool.c lines 138-141). -/
inductive AllocSource
  | slab
  | fallback
deriving DecidableEq

structure memory_pool where
  total_allocated : Int
  total_free : Int
  max_items : Int
  /-- ghost: live items handed out via the free list. -/
  livePool : Int
  /-- ghost: live items handed out by the direct fallback. -/
  liveDirect : Int
  /-- ghost: fallback items already pushed back onto the free list. -/
  directFreed : Int
deriving DecidableEq

/-- `pool_grow` (memory_pool.c lines 27-77): clamp the count at
`max_items`, fail if nothing may be added, otherwise push `count` fresh
items onto the free list and bump both counters. -/
def pool_grow (pool : memory_pool) (count : Int) : Option memory_pool :=
  if pool.total_allocated + count > pool.max_items then
    let c := pool.max_items - pool.total_allocated
    if c ≤ 0 then none
    else some { pool with total_allocated := pool.total_allocated + c,
                          total_free := pool.total_free + c }
  else
    some { pool with total_allocated := pool.total_allocated + count,
                     total_free := pool.total_free + count }

/-- The grow count computed on the slow path of `tbg_pool_alloc`
(memory_pool.c lines 122-127): half the allocated total (or
`POOL_INITIAL_SLABS` = 256 for an empty pool), clamped to 64..4096. -/
def alloc_grow_count (pool : memory_pool) : Int :=
  let g0 : Int := if 0 < pool.total_allocated then pool.total_allocated / 2 else 256
  let g1 : Int := if g0 < 64 then 64 else g0
  if 4096 < g1 then 4096 else g1

/-- `tbg_pool_alloc` (memory_pool.c lines 106-143): pop from the free
list; if it is empty, grow and pop; if growth is refused, hand out a
direct aligned allocation. -/
def tbg_pool_alloc (pool : memory_pool) : memory_pool × AllocSource :=
  if 0 < pool.total_free then
    ({ pool with total_free := pool.total_free - 1,
                 livePool := pool.livePool + 1 }, .slab)
  else
    match pool_grow pool (alloc_grow_count pool) with
    | some p =>
      ({ p with total_free := p.total_free - 1,
                livePool := p.livePool + 1 }, .slab)
    | none =>
      ({ pool with liveDirect := pool.liveDirect + 1 }, .fallback)

/-- `tbg_pool_free` (memory_pool.c lines 145-158): push the item onto the
free list and bump `total_free` — identically for slab items and for
fallback items. The `src` argument is the ghost origin of the freed item. -/
def tbg_pool_free (pool : memory_pool) (src : AllocSource) : memory_pool :=
  match src with
  | .slab => { pool with total_free := pool.total_free + 1,
                         livePool := pool.livePool - 1 }
  | .fallback => { pool with total_free := pool.total_free + 1,
                             liveDirect := pool.liveDirect - 1,
                             directFreed := pool.directFreed + 1 }

/-- `tbg_pool_init` (memory_pool.c lines 79-104), counters only: zero the
pool, default `max_items` to `POOL_MAX_ITEMS` = 1000000 when not positive,
and pre-grow by `initial_count` when positive (a failed pre-grow is
ignored). -/
def tbg_pool_init (initial_count max_items : Int) : memory_pool :=
  let mi := if 0 < max_items then max_items else 1000000
  let base : memory_pool := ⟨0, 0, mi, 0, 0, 0⟩
  if 0 < initial_count then
    match pool_grow base initial_count with
    | some p => p
    | none => base
  else base

/-- One operation of a client of the pool: allocate, or free a live item
of the given ghost origin. -/
inductive PoolOp
  | alloc
  | freeSlab
  | freeFallback
deriving DecidableEq

def poolStep (pool : memory_pool) : PoolOp → memory_pool
  | .alloc => (tbg_pool_alloc pool).1
  | .freeSlab => tbg_pool_free pool .slab
  | .freeFallback => tbg_pool_free pool .fallback

def runPool (pool : memory_pool) : List PoolOp → memory_pool
  | [] => pool
  | op :: rest => runPool (poolStep pool op) rest

/-- A trace is well formed when every free returns an item that is
currently live (of the matching ghost origin): clients only free what they
allocated and never double-free. -/
def wfRun (pool : memory_pool) : List PoolOp → Bool
  | [] => true
  | op :: rest =>
    (match op with
     | .alloc => true
     | .freeSlab => decide (0 < pool.livePool)
     | .freeFallback => decide (0 < pool.liveDirect)) && wfRun (poolStep pool op) rest

/-- Invariant carried through every pool operation. The final equation
records that the free list plus the live slab-origin items account for
all pool-grown items plus every fallback item that was pushed back. -/
def PoolInv (p : memory_pool) : Prop :=
  0 ≤ p.total_allocated ∧ 0 ≤ p.total_free ∧ 0 ≤ p.livePool ∧
  0 ≤ p.liveDirect ∧ 0 ≤ p.directFreed ∧
  p.total_allocated ≤ p.max_items ∧
  p.total_free + p.livePool = p.total_allocated + p.directFreed

/-! ## rate_limit.c

Token counts are C `uint32_t`, modelled as `Nat` reduced mod 2^32 at the
points where the C arithmetic wraps (64-bit overflow of the signed
product `elapsed * refill_per_min`, which needs about 2^63 token-seconds,
is not modelled). `active_connections` and the global connection counter
are C `_Atomic int32_t`, modelled as `Int`; no statement below brings
them anywhere near the two's-complement bounds. Times (`time_t`) are
`Int`; each call receives the value of `time(NULL)` as an explicit `now`
argument, held fixed within a call. The uthash table is a map from the
IP string to its entry; textual IPs fit the 46-byte key buffer, so the
`strncpy` at entry creation copies the key unchanged. -/

structure rate_bucket where
  tokens : Nat
  max_tokens : Nat
  refill_per_min : Nat
  last_refill : Int
deriving DecidableEq

/-- Conversion of a C `int` to `uint32_t` (two's-complement wrap), used
where `rate_limit.c` casts config fields. -/
def intToU32 (i : Int) : Nat := (i % 4294967296).toNat

/-- `bucket_init` (rate_limit.c lines 48-55): a fresh bucket is full. -/
def bucket_init (max_tokens refill_per_min : Nat) (now : Int) : rate_bucket :=
  ⟨max_tokens, max_tokens, refill_per_min, now⟩

/-- `bucket_refill` (rate_limit.c lines 57-78). `to_add` is the 64-bit
signed quotient truncated to `uint32_t`; `current + to_add` wraps again
at 2^32 before the clamp against `max_tokens`. `last_refill` advances
only when `to_add` is non-zero. -/
def bucket_refill (b : rate_bucket) (now : Int) : rate_bucket :=
  let elapsed := now - b.last_refill
  if elapsed ≤ 0 then b
  else
    let to_add : Nat := ((elapsed * (b.refill_per_min : Int)) / 60).toNat % 4294967296
    if to_add = 0 then b
    else
      let raw := (b.tokens + to_add) % 4294967296
      let new_tokens := if raw > b.max_tokens then b.max_tokens else raw
      { b with tokens := new_tokens, last_refill := now }

/-- `bucket_consume` (rate_limit.c lines 80-97): refill, then take one
token if any are left (the CAS loop of the C code always succeeds on its
first attempt in this sequential model). -/
def bucket_consume (b : rate_bucket) (now : Int) : Bool × rate_bucket :=
  let b2 := bucket_refill b now
  if b2.tokens = 0 then (false, b2)
  else (true, { b2 with tokens := b2.tokens - 1 })

/-- Per-IP entry `ip_rate_entry_t` (rate_limit.c lines 26-34). -/
structure ip_rate_entry where
  connect_bucket : rate_bucket
  active_connections : Int
  first_seen : Int
  last_seen : Int
  softban_until : Int
deriving DecidableEq

/-- `rate_limit_config_t` (rate_limit.h lines 77-86). -/
structure rate_limit_config where
  connections_per_ip_per_minute : Int
  max_connections_per_ip : Int
  max_subscribes_per_minute : Int
  max_authorizes_per_minute : Int
  max_shares_per_minute : Int
  max_invalid_shares_per_minute : Int
  global_max_connections : Int
  softban_duration_seconds : Int

/-- The rate limiter's global state: the uthash IP table, the global
connection counter and the configuration (rate_limit.c lines 36-44). -/
structure RateLimitState where
  ip_table : String → Option ip_rate_entry
  g_total_connections : Int
  g_config : rate_limit_config

/-- Point update of the IP table (uthash `HASH_ADD_STR`, or the in-place
mutation of an entry through the pointer returned by lookup). -/
def update_ip_table (t : String → Option ip_rate_entry) (ip : String)
    (e : ip_rate_entry) : String → Option ip_rate_entry :=
  fun k => if k = ip then some e else t k

/-- `get_or_create_ip_entry` (rate_limit.c lines 109-136): on a hit the
entry's `last_seen` is refreshed; on a miss a zeroed entry with a full
connect bucket is inserted. -/
def get_or_create_ip_entry (s : RateLimitState) (ip : String) (now : Int) :
    ip_rate_entry × RateLimitState :=
  match s.ip_table ip with
  | some e =>
    let e2 := { e with last_seen := now }
    (e2, { s with ip_table := update_ip_table s.ip_table ip e2 })
  | none =>
    let m := intToU32 s.g_config.connections_per_ip_per_minute
    let e : ip_rate_entry :=
      { connect_bucket := bucket_init m m now
        active_connections := 0
        first_seen := now
        last_seen := now
        softban_until := 0 }
    (e, { s with ip_table := update_ip_table s.ip_table ip e })

/-- `tbg_rate_limit_connect` (rate_limit.c lines 225-283): global cap,
entry lookup/creation, soft-ban check and expiry, per-IP concurrent cap,
connect-bucket consumption, then increment of both counters. Every
mutation of the entry is written through to the table, as the C code
mutates the entry in place. -/
def tbg_rate_limit_connect (s : RateLimitState) (ip : String) (now : Int) :
    Bool × RateLimitState :=
  if s.g_total_connections ≥ s.g_config.global_max_connections then (false, s)
  else
    let es := get_or_create_ip_entry s ip now
    let e := es.1
    let s1 := es.2
    if e.softban_until > 0 ∧ now < e.softban_until then (false, s1)
    else
      let e2 := if e.softban_until > 0 ∧ e.softban_until ≤ now then
                  { e with softban_until := 0 } else e
      let s2 := { s1 with ip_table := update_ip_table s1.ip_table ip e2 }
      if e2.active_connections ≥ s.g_config.max_connections_per_ip then (false, s2)
      else
        let ob := bucket_consume e2.connect_bucket now
        let e3 := { e2 with connect_bucket := ob.2 }
        let s3 := { s2 with ip_table := update_ip_table s2.ip_table ip e3 }
        if ob.1 = false then (false, s3)
        else
          let e4 := { e3 with active_connections := e3.active_connections + 1 }
          (true, { s3 with ip_table := update_ip_table s3.ip_table ip e4,
                           g_total_connections := s3.g_total_connections + 1 })

/-- `tbg_rate_limit_disconnect` (rate_limit.c lines 285-303): decrement
the global counter unconditionally; if the IP has an entry, decrement its
`active_connections`, storing 0 when the previous value was not positive. -/
def tbg_rate_limit_disconnect (s : RateLimitState) (ip : String) : RateLimitState :=
  let s1 := { s with g_total_connections := s.g_total_connections - 1 }
  match s1.ip_table ip with
  | none => s1
  | some e =>
    let active := e.active_connections
    let e2 := if active ≤ 0 then { e with active_connections := 0 }
              else { e with active_connections := active - 1 }
    { s1 with ip_table := update_ip_table s1.ip_table ip e2 }

/-- `tbg_rate_limit_global_connections` (rate_limit.c lines 390-393). -/
def tbg_rate_limit_global_connections (s : RateLimitState) : Int :=
  s.g_total_connections

/-- One `HASH_ITER` sweep of the background reaper `cleanup_thread_func`
(rate_limit.c lines 140-172): keep entries with active connections,
delete entries whose `last_seen` is older than the cutoff
`now - RATE_STALE_THRESHOLD` (300 s), where `now` is the time sampled
when the cutoff is computed. -/
def cleanup_pass (table : String → Option ip_rate_entry) (now : Int) :
    String → Option ip_rate_entry :=
  fun ip =>
    match table ip with
    | none => none
    | some e =>
      if e.active_connections > 0 then some e
      else if e.last_seen < now - 300 then none
      else some e

/-- `n` consecutive connect calls for the same IP at the same time,
collecting the results. -/
def connectRepeat (s : RateLimitState) (ip : String) (now : Int) :
    Nat → List Bool × RateLimitState
  | 0 => ([], s)
  | n + 1 =>
    let p := connectRepeat s ip now n
    let q := tbg_rate_limit_connect p.2 ip now
    (p.1 ++ [q.1], q.2)

/-- `n` consecutive disconnect calls for the same IP. -/
def disconnectRepeat (s : RateLimitState) (ip : String) : Nat → RateLimitState
  | 0 => s
  | n + 1 => tbg_rate_limit_disconnect (disconnectRepeat s ip n) ip

/-- The entry a fresh IP reaches after `k` admitted connections at one
instant under `connections_per_ip_per_minute = 10`: a bucket with
`10 - k` tokens refilled at `now`, and `k` active connections. -/
def c4Entry (now : Int) (k : Nat) : ip_rate_entry :=
  ⟨⟨10 - k, 10, 10, now⟩, (k : Int), now, now, 0⟩

/-! ## event_ring.c

Ring positions and statistics counters are C `uint64_t`, so every
increment is reduced mod 2^64. A slot's payload is the stored byte list
(the C code also NUL-terminates the buffer, which the `len`-bounded model
does not need to represent). The sequential push below performs the whole
producer protocol of `tbg_event_ring_push`: the EMPTY→WRITING
compare-and-swap followed by the copy and the WRITING→READY store, so a
slot is never left in the WRITING state between operations. -/

inductive SlotState
  | empty
  | writing
  | ready
deriving DecidableEq

structure event_slot where
  state : SlotState
  len : Nat
  data : List Nat
deriving DecidableEq

structure event_ring where
  slots : Fin 4096 → event_slot
  write_pos : Nat
  read_pos : Nat
  events_queued : Nat
  events_sent : Nat
  events_dropped : Nat
  batch_count : Nat

/-- `tbg_event_ring_init` (event_ring.c lines 34-48). -/
def tbg_event_ring_init : event_ring :=
  ⟨fun _ => ⟨SlotState.empty, 0, []⟩, 0, 0, 0, 0, 0, 0⟩

/-- `tbg_event_ring_push` (event_ring.c lines 50-87): reject null/empty
payloads, truncate to `EVENT_MAX_SIZE - 1` = 4095 bytes, claim a slot by
fetch-add on `write_pos`, and either publish into an EMPTY slot or count
a drop, leaving the slot untouched. -/
def tbg_event_ring_push (ring : event_ring) (json : List Nat) : Bool × event_ring :=
  if json = [] then (false, ring)
  else
    let len := if 4096 ≤ json.length then 4095 else json.length
    let pos := ring.write_pos
    let ring1 := { ring with write_pos := (pos + 1) % 18446744073709551616 }
    let idx : Fin 4096 := ⟨pos % 4096, Nat.mod_lt pos (by norm_num)⟩
    if (ring1.slots idx).state = SlotState.empty then
      (true, { ring1 with
        slots := Function.update ring1.slots idx ⟨SlotState.ready, len, json.take len⟩,
        events_queued := (ring1.events_queued + 1) % 18446744073709551616 })
    else
      (false, { ring1 with
        events_dropped := (ring1.events_dropped + 1) % 18446744073709551616 })

/-- `n` pushes of the same payload, with the drainer inactive. -/
def pushRepeat (ring : event_ring) (json : List Nat) : Nat → event_ring
  | 0 => ring
  | n + 1 => (tbg_event_ring_push (pushRepeat ring json n) json).2

/-! ## Relay wire framing (tbg_relay_server.c / tbg_relay_client.c)

Byte streams are lists of byte values. `send_msg` is identical in
tbg_relay_server.c (lines 48-74) and tbg_relay_client.c (lines 47-71),
as is `recv_msg` (tbg_relay_server.c lines 92-127, tbg_relay_client.c
lines 89-124); each is embedded once. -/

/-- The 4-byte magic `"TBGR"` (tbg_relay.h line 20). -/
def TBG_RELAY_MAGIC : List Nat := [84, 66, 71, 82]

/-- Big-endian bytes of a `uint32_t` (`htonl`). -/
def be32 (n : Nat) : List Nat :=
  [n / 16777216 % 256, n / 65536 % 256, n / 256 % 256, n % 256]

/-- `send_msg`: the 12-byte header — magic, version 1, message type, two
reserved zero bytes, network-order length — followed by the payload. -/
def send_msg (msg_type : Nat) (payload : List Nat) : List Nat :=
  TBG_RELAY_MAGIC ++ [1, msg_type, 0, 0] ++ be32 payload.length ++ payload

/-- `recv_msg`: read a 12-byte header and validate magic, version and
length (max `TBG_RELAY_MAX_MSG` = 4 MiB) before reading any payload
bytes; return the message type with its payload, together with the
unconsumed remainder of the stream. A too-short stream (`recv` failure)
consumes everything. -/
def recv_msg (stream : List Nat) : Option (Nat × List Nat) × List Nat :=
  if stream.length < 12 then (none, [])
  else
    let rest := stream.drop 12
    if stream.take 4 ≠ TBG_RELAY_MAGIC then (none, rest)
    else if stream.getD 4 0 ≠ 1 then (none, rest)
    else
      let len := 16777216 * stream.getD 8 0 + 65536 * stream.getD 9 0 +
                 256 * stream.getD 10 0 + stream.getD 11 0
      if 4194304 < len then (none, rest)
      else if rest.length < len then (none, [])
      else (some (stream.getD 5 0, rest.take len), rest.drop len)

/-! ## tbg_relay_client.c state machine

The client state, with the fd abstracted to whether it is open
(`fd >= 0`). Each handler below is the body of the corresponding branch
of `receiver_thread` or `heartbeat_monitor`, with `time(NULL)` passed as
`now` and the caller-supplied template callback abstracted to whether one
is set plus a delivered flag. -/

structure tbg_relay_client_state where
  fdOpen : Bool
  failover_timeout : Int
  last_heartbeat : Int
  connected : Bool
  independent_mode : Bool
deriving DecidableEq

/-- The `TBG_MSG_TEMPLATE` branch of `receiver_thread`
(tbg_relay_client.c lines 232-238): refresh `last_heartbeat`, then invoke
the callback iff a payload arrived, a callback is set, and the client is
not in independent mode. The returned flag records whether the callback
was invoked. -/
def receiver_dispatch_template (s : tbg_relay_client_state)
    (payload : Option (List Nat)) (cbSet : Bool) (now : Int) :
    tbg_relay_client_state × Bool :=
  let s2 := { s with last_heartbeat := now }
  if payload.isSome = true ∧ cbSet = true ∧ s2.independent_mode = false then
    (s2, true)
  else (s2, false)

/-- The failover check of `heartbeat_monitor` (tbg_relay_client.c lines
272-291): when connected and silent past `failover_timeout`, enter
independent mode, close the fd and clear `connected`. -/
def heartbeat_monitor_check (s : tbg_relay_client_state) (now : Int) :
    tbg_relay_client_state :=
  if s.connected = true then
    let elapsed := now - s.last_heartbeat
    if s.failover_timeout < elapsed ∧ s.independent_mode = false then
      let s2 := { s with independent_mode := true }
      if s2.fdOpen = true then { s2 with fdOpen := false, connected := false }
      else s2
    else s
  else s

/-- The successful-reconnect branch of `receiver_thread`
(tbg_relay_client.c lines 179-205): mark connected, refresh
`last_heartbeat`, send REGISTER, and leave independent mode. -/
def receiver_reconnect (s : tbg_relay_client_state) (now : Int) :
    tbg_relay_client_state :=
  { s with fdOpen := true, connected := true, last_heartbeat := now,
           independent_mode := false }

/-! ## tbg_relay_server.c peer REGISTER handling -/

/-- Primary-side peer state, restricted to the fields the REGISTER
branch touches: the `char region[32]` buffer (its C-string contents) and
`last_heartbeat` (tbg_relay.h lines 49-55). -/
structure tbg_relay_peer where
  region : List Nat
  last_heartbeat : Int
deriving DecidableEq

/-- The `TBG_MSG_REGISTER` branch of `peer_handler` (tbg_relay_server.c
lines 158-165): only when the payload is non-null and its length is
strictly below `sizeof(peer->region)` = 32 is it copied (strncpy, so up
to the first NUL byte and at most 31 bytes) into `region`;
`last_heartbeat` is refreshed in every case. -/
def peer_handler_register (peer : tbg_relay_peer) (payload : Option (List Nat))
    (now : Int) : tbg_relay_peer :=
  match payload with
  | some pl =>
    if pl.length < 32 then
      { peer with region := (pl.takeWhile (fun c => c != 0)).take 31,
                  last_heartbeat := now }
    else { peer with last_heartbeat := now }
  | none => { peer with last_heartbeat := now }

end Tbg

namespace Tbg

/-! ## Theorems for claim C1 -/

theorem lowerByte_eq_98 {c : Nat} (h : lowerByte c = 98) : c = 98 ∨ c = 66 := by
  unfold lowerByte at h
  split at h <;> omega

theorem lowerByte_eq_116 {c : Nat} (h : lowerByte c = 116) : c = 116 ∨ c = 84 := by
  unfold lowerByte at h
  split at h <;> omega

theorem strncasecmp3_length {address lit : List Nat} (hlit : lit.length = 3)
    (h : strncasecmp3 address lit = true) : 3 ≤ address.length := by
  unfold strncasecmp3 at h
  have hlen : ((address.take 3).map lowerByte).length = lit.length := by
    rw [eq_of_beq h]
  simp only [List.length_map, List.length_take, hlit] at hlen
  omega

theorem strncasecmp3_head {address lit : List Nat} (h : strncasecmp3 address lit = true)
    (hlen : 3 ≤ address.length) :
    ∃ c, address.getD 0 0 = c ∧ lowerByte c = lit.getD 0 0 := by
  refine ⟨address.getD 0 0, rfl, ?_⟩
  unfold strncasecmp3 at h
  have heq := eq_of_beq h
  have h0 : ((address.take 3).map lowerByte).getD 0 0 = lit.getD 0 0 := by rw [heq]
  rcases address with _ | ⟨a, as⟩
  · simp at hlen
  · simpa using h0

/-- C1 (amended): for every string starting case-insensitively with `bc1`
or `tb1`, `tbg_validate_btc_address` accepts iff the length is 14..74, the
fourth character lower-cases to `q` or `p`, and every character after the
first three lower-cases into the bech32 alphabet. (The claim's additional
"mixed case is rejected" clause is dropped: the code is fully
case-insensitive and accepts mixed-case strings; see the counterexample.) -/
theorem c1_bech32_shape (address : List Nat)
    (hpre : strncasecmp3 address [98, 99, 49] = true ∨
            strncasecmp3 address [116, 98, 49] = true) :
    tbg_validate_btc_address address = true ↔
      (14 ≤ address.length ∧ address.length ≤ 74 ∧
       (lowerByte (address.getD 3 0) = 113 ∨ lowerByte (address.getD 3 0) = 112) ∧
       (∀ c ∈ address.drop 3, lowerByte c ∈ bech32Alphabet)) := by
  have hlen3 : 3 ≤ address.length := by
    rcases hpre with h | h
    · exact strncasecmp3_length (by decide) h
    · exact strncasecmp3_length (by decide) h
  have hhead : address.getD 0 0 = 98 ∨ address.getD 0 0 = 66 ∨
      address.getD 0 0 = 116 ∨ address.getD 0 0 = 84 := by
    rcases hpre with h | h
    · obtain ⟨c, hc, hl⟩ := strncasecmp3_head h hlen3
      have := lowerByte_eq_98 (by simpa using hl)
      omega
    · obtain ⟨c, hc, hl⟩ := strncasecmp3_head h hlen3
      have := lowerByte_eq_116 (by simpa using hl)
      omega
  unfold tbg_validate_btc_address
  have hne : ¬(address.getD 0 0 = 49 ∨ address.getD 0 0 = 51 ∨
      address.getD 0 0 = 109 ∨ address.getD 0 0 = 110 ∨ address.getD 0 0 = 50) := by
    omega
  simp only [hne, if_false, hpre, if_true]
  rcases Nat.lt_or_ge 90 address.length with hbig | hsmall
  · have h1 : (address.length = 0 ∨ 90 < address.length) := Or.inr hbig
    simp only [h1, if_true]
    constructor
    · intro h; exact absurd h (by simp)
    · intro ⟨_, h2, _⟩; omega
  · have h1 : ¬(address.length = 0 ∨ 90 < address.length) := by omega
    simp only [h1, if_false]
    unfold validate_bech32_address
    rcases Nat.lt_or_ge address.length 14 with hlt | hge
    · have h2 : (address.length < 14 ∨ 74 < address.length) := Or.inl hlt
      simp only [h2, if_true]
      constructor
      · intro h; exact absurd h (by simp)
      · intro ⟨h3, _⟩; omega
    · rcases Nat.lt_or_ge 74 address.length with hgt | hle
      · have h2 : (address.length < 14 ∨ 74 < address.length) := Or.inr hgt
        simp only [h2, if_true]
        constructor
        · intro h; exact absurd h (by simp)
        · intro ⟨_, h3, _⟩; omega
      · have h2 : ¬(address.length < 14 ∨ 74 < address.length) := by omega
        simp only [h2, if_false]
        have hp : ¬¬(strncasecmp3 address [98, 99, 49] = true ∨
            strncasecmp3 address [116, 98, 49] = true) := not_not_intro hpre
        simp only [hp, if_false]
        by_cases hqp : lowerByte (address.getD 3 0) = 113 ∨ lowerByte (address.getD 3 0) = 112
        · have hq : ¬¬(lowerByte (address.getD 3 0) = 113 ∨
              lowerByte (address.getD 3 0) = 112) := not_not_intro hqp
          simp only [hq, if_false]
          have hdrop : address.drop 3 = address.getD 3 0 :: address.drop 4 := by
            have h3 : 3 < address.length := by omega
            rw [List.getD_eq_getElem address 0 h3, List.drop_eq_getElem_cons h3]
          constructor
          · intro hall
            refine ⟨by omega, by omega, hqp, ?_⟩
            intro c hc
            rw [hdrop] at hc
            rcases List.mem_cons.mp hc with hc | hc
            · subst hc
              rcases hqp with h | h <;> rw [h] <;> decide
            · have := (List.all_eq_true.mp hall) c hc
              exact List.mem_of_elem_eq_true this
          · intro ⟨_, _, _, hall⟩
            rw [List.all_eq_true]
            intro c hc
            have hmem : c ∈ address.drop 3 := by
              rw [hdrop]; exact List.mem_cons_of_mem _ hc
            exact List.elem_eq_true_of_mem (hall c hmem)
        · have hq : (if ¬(lowerByte (address.getD 3 0) = 113 ∨
              lowerByte (address.getD 3 0) = 112) then false
              else (address.drop 4).all (fun c => bech32Alphabet.contains (lowerByte c)))
              = false := if_pos hqp
          rw [hq]
          constructor
          · intro h; exact absurd h (by simp)
          · intro ⟨_, _, h3, _⟩; exact absurd h3 hqp

/-- C1 witness: the standard BIP173 address `bc1qw508d...` (all lower case)
satisfies the premise and the shape conditions, so it is accepted. -/
theorem c1_bech32_shape_witness :
    tbg_validate_btc_address (("bc1qw508d6qejxtdg4y5r3zarvary0c5xw7kv8f3t4".toList).map Char.toNat) = true := by
  have h := c1_bech32_shape (("bc1qw508d6qejxtdg4y5r3zarvary0c5xw7kv8f3t4".toList).map Char.toNat)
    (by decide)
  exact h.mpr (by decide)

/-- C1 counterexample: a mixed-case bech32 address (upper-case fourth
character, lower-case data part) is accepted by `tbg_validate_btc_address`,
refuting the claim that mixed-case addresses are rejected. -/
theorem c1_counterexample :
    tbg_validate_btc_address mixedCaseAddr = true ∧
    (∃ c ∈ mixedCaseAddr, 65 ≤ c ∧ c ≤ 90) ∧
    (∃ c ∈ mixedCaseAddr, 97 ≤ c ∧ c ≤ 122) ∧
    (strncasecmp3 mixedCaseAddr [98, 99, 49] = true) := by
  refine ⟨by decide, ⟨81, by decide⟩, ⟨98, by decide⟩, by decide⟩

end Tbg

namespace Tbg

/-! ## Theorems for claim C2 -/

theorem alloc_grow_count_pos (p : memory_pool) : 0 < alloc_grow_count p := by
  simp only [alloc_grow_count]
  generalize p.total_allocated / 2 = q
  split <;> split <;> split <;> omega

theorem pool_grow_spec {p q : memory_pool} {count : Int}
    (h : pool_grow p count = some q) (hc : 0 < count) :
    ∃ c : Int, 0 < c ∧ p.total_allocated + c ≤ p.max_items ∧
      q = { p with total_allocated := p.total_allocated + c,
                   total_free := p.total_free + c } := by
  simp only [pool_grow] at h
  split at h
  · split at h
    · exact absurd h (by simp)
    · rename_i h1 h2
      exact ⟨p.max_items - p.total_allocated, by omega, by omega,
        (Option.some.inj h).symm⟩
  · rename_i h1
    exact ⟨count, hc, by omega, (Option.some.inj h).symm⟩

theorem poolStep_inv {p : memory_pool} (hp : PoolInv p) (op : PoolOp)
    (h1 : op = .freeSlab → 0 < p.livePool)
    (h2 : op = .freeFallback → 0 < p.liveDirect) :
    PoolInv (poolStep p op) := by
  unfold PoolInv at hp ⊢
  cases op with
  | alloc =>
    by_cases hf : 0 < p.total_free
    · simp only [poolStep, tbg_pool_alloc, hf, if_true]
      omega
    · simp only [poolStep, tbg_pool_alloc, hf, if_false]
      cases hgrow : pool_grow p (alloc_grow_count p) with
      | none =>
        simp only [hgrow]
        omega
      | some q =>
        obtain ⟨c, hc, hle, hq⟩ := pool_grow_spec hgrow (alloc_grow_count_pos p)
        subst hq
        simp only [hgrow]
        omega
  | freeSlab =>
    have := h1 rfl
    simp only [poolStep, tbg_pool_free]
    omega
  | freeFallback =>
    have := h2 rfl
    simp only [poolStep, tbg_pool_free]
    omega

theorem runPool_inv {p : memory_pool} {ops : List PoolOp} (hp : PoolInv p)
    (hwf : wfRun p ops = true) :
    PoolInv (runPool p ops) ∧
      (PoolOp.freeFallback ∉ ops →
        (runPool p ops).directFreed = p.directFreed) := by
  induction ops generalizing p with
  | nil => exact ⟨hp, fun _ => rfl⟩
  | cons op rest ih =>
    simp only [wfRun, Bool.and_eq_true] at hwf
    have hstep : PoolInv (poolStep p op) := by
      refine poolStep_inv hp op ?_ ?_
      · intro he; subst he; simpa using hwf.1
      · intro he; subst he; simpa using hwf.1
    obtain ⟨hinv, hfree⟩ := ih hstep hwf.2
    rw [runPool]
    refine ⟨hinv, fun hnot => ?_⟩
    have hop : op ≠ PoolOp.freeFallback := fun he => hnot (he ▸ List.mem_cons_self _ _)
    have hrest : PoolOp.freeFallback ∉ rest := fun hm => hnot (List.mem_cons_of_mem _ hm)
    rw [hfree hrest]
    cases op with
    | alloc =>
      by_cases hf : 0 < p.total_free
      · simp [poolStep, tbg_pool_alloc, hf]
      · simp only [poolStep, tbg_pool_alloc, hf, if_false]
        cases hgrow : pool_grow p (alloc_grow_count p) with
        | none => simp [hgrow]
        | some q =>
          obtain ⟨c, hc, hle, hq⟩ := pool_grow_spec hgrow (alloc_grow_count_pos p)
          subst hq
          simp [hgrow]
    | freeSlab => simp [poolStep, tbg_pool_free]
    | freeFallback => exact absurd rfl hop

theorem tbg_pool_init_inv (ic mi : Int) :
    PoolInv (tbg_pool_init ic mi) ∧ (tbg_pool_init ic mi).directFreed = 0 := by
  simp only [tbg_pool_init]
  have hmipos : 0 < (if 0 < mi then mi else 1000000) := by split <;> omega
  generalize hgen : (if 0 < mi then mi else 1000000) = mi2 at hmipos ⊢
  by_cases hic : 0 < ic
  · simp only [hic, if_true]
    cases hgrow : pool_grow ⟨0, 0, mi2, 0, 0, 0⟩ ic with
    | none =>
      unfold PoolInv
      try dsimp only
      refine ⟨?_, by trivial⟩
      omega
    | some q =>
      obtain ⟨c, hc, hle, hq⟩ := pool_grow_spec hgrow hic
      subst hq
      unfold PoolInv
      dsimp only at hle ⊢
      refine ⟨?_, by trivial⟩
      omega
  · simp only [hic, if_false]
    unfold PoolInv
    try dsimp only
    refine ⟨?_, by trivial⟩
    omega

/-- C2 (amended): along every well-formed alloc/free sequence on an
initialized pool, `total_allocated ≤ max_items` holds unconditionally,
and `total_free ≤ total_allocated` holds provided no fallback-allocated
item is freed back into the pool. (Freeing a fallback item increments
`total_free` without `total_allocated`, which breaks the latter bound —
see the counterexample.) -/
theorem c2_pool_counters (initial_count max_items : Int) (ops : List PoolOp)
    (hwf : wfRun (tbg_pool_init initial_count max_items) ops = true) :
    (runPool (tbg_pool_init initial_count max_items) ops).total_allocated ≤
      (runPool (tbg_pool_init initial_count max_items) ops).max_items ∧
    (PoolOp.freeFallback ∉ ops →
      (runPool (tbg_pool_init initial_count max_items) ops).total_free ≤
        (runPool (tbg_pool_init initial_count max_items) ops).total_allocated) := by
  obtain ⟨hinit, hdf⟩ := tbg_pool_init_inv initial_count max_items
  obtain ⟨hinv, hfree⟩ := runPool_inv hinit hwf
  unfold PoolInv at hinv
  refine ⟨by omega, fun hnot => ?_⟩
  have := hfree hnot
  omega

/-- C2 witness: a pool capped at 2 items, with one item allocated and
freed: the counters obey both bounds. -/
theorem c2_pool_counters_witness :
    (runPool (tbg_pool_init 0 2) [PoolOp.alloc, PoolOp.freeSlab]).total_free ≤
      (runPool (tbg_pool_init 0 2) [PoolOp.alloc, PoolOp.freeSlab]).total_allocated := by
  have h := c2_pool_counters 0 2 [PoolOp.alloc, PoolOp.freeSlab] (by decide)
  exact h.2 (by decide)

/-- C2 counterexample: a pool capped at 1 item. The first allocation
creates the single slab item; the second is served by the direct fallback
because growth is refused at `max_items`. Freeing both items leaves
`total_free = 2 > 1 = total_allocated`, refuting the claimed invariant
on a well-formed alloc/free sequence. -/
theorem c2_counterexample :
    wfRun (tbg_pool_init 0 1)
      [PoolOp.alloc, PoolOp.alloc, PoolOp.freeSlab, PoolOp.freeFallback] = true ∧
    ¬((runPool (tbg_pool_init 0 1)
        [PoolOp.alloc, PoolOp.alloc, PoolOp.freeSlab, PoolOp.freeFallback]).total_free ≤
      (runPool (tbg_pool_init 0 1)
        [PoolOp.alloc, PoolOp.alloc, PoolOp.freeSlab, PoolOp.freeFallback]).total_allocated) := by
  decide

end Tbg

namespace Tbg

/-! ## Theorems for claim C3 -/

theorem bucket_refill_le_max {b : rate_bucket} (h : b.tokens ≤ b.max_tokens)
    (now : Int) : (bucket_refill b now).tokens ≤ b.max_tokens := by
  simp only [bucket_refill]
  split
  · exact h
  · split
    · exact h
    · dsimp only
      split
      · exact le_refl _
      · omega

theorem bucket_consume_le_max {b : rate_bucket} (h : b.tokens ≤ b.max_tokens)
    (now : Int) : ((bucket_consume b now).2).tokens ≤ b.max_tokens := by
  simp only [bucket_consume]
  have hr := bucket_refill_le_max h now
  split
  · exact hr
  · dsimp only
    omega

/-- C3 (amended): with `T` seconds elapsed and writing
`add = floor(T * r / 60)`, a refill sets the tokens to
`min(max_tokens, tokens + add)` and advances `last_refill` exactly when
`add > 0`, and the invariant `tokens ≤ max_tokens` is preserved by every
refill and consume — all provided `tokens + add < 2^32`, the bound under
which the `uint32_t` arithmetic of the C code does not wrap. (Without
that bound the truncation to `uint32_t` falsifies the refill equation;
see the counterexample.) -/
theorem c3_token_bucket (b : rate_bucket) (T : Nat)
    (hmax : b.tokens ≤ b.max_tokens)
    (hbound : b.tokens + T * b.refill_per_min / 60 < 4294967296) :
    ((bucket_refill b (b.last_refill + (T : Int))).tokens
        = min b.max_tokens (b.tokens + T * b.refill_per_min / 60))
    ∧ ((bucket_refill b (b.last_refill + (T : Int))).last_refill
        = if 0 < T * b.refill_per_min / 60 then b.last_refill + (T : Int)
          else b.last_refill)
    ∧ (b.tokens = 0 →
        (bucket_refill b (b.last_refill + (T : Int))).tokens
          = min b.max_tokens (T * b.refill_per_min / 60))
    ∧ (∀ now : Int, (bucket_refill b now).tokens ≤ b.max_tokens)
    ∧ (∀ now : Int, ((bucket_consume b now).2).tokens ≤ b.max_tokens) := by
  have helapsed : b.last_refill + (T : Int) - b.last_refill = (T : Int) := by ring
  have hadd : ((T : Int) * (b.refill_per_min : Int) / 60).toNat % 4294967296
      = T * b.refill_per_min / 60 := by
    have hc : ((T : Int) * (b.refill_per_min : Int))
        = ((T * b.refill_per_min : Nat) : Int) := by push_cast; ring
    rw [hc]
    omega
  have hmain : (bucket_refill b (b.last_refill + (T : Int))).tokens
        = min b.max_tokens (b.tokens + T * b.refill_per_min / 60)
      ∧ (bucket_refill b (b.last_refill + (T : Int))).last_refill
        = if 0 < T * b.refill_per_min / 60 then b.last_refill + (T : Int)
          else b.last_refill := by
    simp only [bucket_refill, helapsed]
    rw [hadd]
    by_cases hT : (T : Int) ≤ 0
    · have hT0 : T = 0 := by omega
      subst hT0
      rw [if_pos hT]
      constructor
      · simp only [Nat.zero_mul, Nat.zero_div, Nat.add_zero]
        omega
      · norm_num
    · rw [if_neg hT]
      by_cases hz : T * b.refill_per_min / 60 = 0
      · rw [if_pos hz]
        have hnpos : ¬(0 < T * b.refill_per_min / 60) := by omega
        rw [if_neg hnpos]
        constructor
        · omega
        · rfl
      · rw [if_neg hz]
        try dsimp only
        have hmod : (b.tokens + T * b.refill_per_min / 60) % 4294967296
            = b.tokens + T * b.refill_per_min / 60 := Nat.mod_eq_of_lt hbound
        rw [hmod]
        have hpos : 0 < T * b.refill_per_min / 60 := Nat.pos_of_ne_zero hz
        rw [if_pos hpos]
        constructor
        · split
          · omega
          · omega
        · rfl
  refine ⟨hmain.1, hmain.2, fun h0 => ?_, fun now => bucket_refill_le_max hmax now,
    fun now => bucket_consume_le_max hmax now⟩
  rw [hmain.1, h0, Nat.zero_add]

/-- C3 witness: a bucket with 3 tokens, cap 10, rate 7/min; after 60
elapsed seconds the refill adds 7 tokens and clamps at the cap. -/
theorem c3_token_bucket_witness :
    (bucket_refill ⟨3, 10, 7, 100⟩ 160).tokens = 10 ∧
    (bucket_refill ⟨3, 10, 7, 100⟩ 160).last_refill = 160 := by
  have h := c3_token_bucket ⟨3, 10, 7, 100⟩ 60 (by decide) (by decide)
  refine ⟨?_, ?_⟩
  · have h1 := h.1
    norm_num at h1 ⊢
    exact h1
  · have h2 := h.2.1
    norm_num at h2 ⊢
    exact h2

/-- C3 counterexample: with rate 60/min and an elapsed time of 2^32
seconds, `floor(T*r/60) = 2^32` truncates to 0 in `uint32_t`, so a bucket
starting at 0 tokens still holds 0 tokens after the refill, while the
claim demands `min(max_tokens, floor(T*r/60)) = 10`. -/
theorem c3_counterexample :
    (bucket_refill ⟨0, 10, 60, 0⟩ 4294967296).tokens = 0 ∧
    min (10 : Nat) (4294967296 * 60 / 60) = 10 ∧
    (bucket_refill ⟨0, 10, 60, 0⟩ 4294967296).tokens ≠
      min (10 : Nat) (4294967296 * 60 / 60) := by
  refine ⟨by decide, by decide, by decide⟩

end Tbg

namespace Tbg

/-! ## Theorems for claims C9 and C10 -/

/-- C9: in a reaper sweep, an entry with active connections is never
removed, however old; and (for the non-negative counter values the
limiter maintains) an entry is removed iff it has no active connections
and its `last_seen` is older than `now` minus the 300 s stale threshold. -/
theorem c9_reaper (table : String → Option ip_rate_entry) (now : Int)
    (ip : String) (e : ip_rate_entry) (h : table ip = some e) :
    (0 < e.active_connections → cleanup_pass table now ip = some e) ∧
    (0 ≤ e.active_connections →
      (cleanup_pass table now ip = none ↔
        e.active_connections = 0 ∧ e.last_seen < now - 300)) := by
  have hc : cleanup_pass table now ip =
      (if e.active_connections > 0 then some e
       else if e.last_seen < now - 300 then none else some e) := by
    unfold cleanup_pass
    rw [h]
  rw [hc]
  constructor
  · intro hpos
    rw [if_pos hpos]
  · intro hge
    constructor
    · intro hnone
      by_cases hpos : e.active_connections > 0
      · rw [if_pos hpos] at hnone
        exact absurd hnone (by simp)
      · rw [if_neg hpos] at hnone
        by_cases hstale : e.last_seen < now - 300
        · exact ⟨by omega, hstale⟩
        · rw [if_neg hstale] at hnone
          exact absurd hnone (by simp)
    · intro ⟨h0, hstale⟩
      have hpos : ¬e.active_connections > 0 := by omega
      rw [if_neg hpos, if_pos hstale]

/-- C9 witness: an idle entry (no active connections) last seen at time 0
is removed by a sweep at time 1000. -/
theorem c9_reaper_witness :
    cleanup_pass (fun k => if k = "10.0.0.1" then
        some ⟨⟨10, 10, 10, 0⟩, 0, 0, 0, 0⟩ else none) 1000 "10.0.0.1" = none := by
  have h := c9_reaper (fun k => if k = "10.0.0.1" then
      some ⟨⟨10, 10, 10, 0⟩, 0, 0, 0, 0⟩ else none) 1000 "10.0.0.1"
      ⟨⟨10, 10, 10, 0⟩, 0, 0, 0, 0⟩ (by simp)
  exact (h.2 (by norm_num)).mpr ⟨rfl, by norm_num⟩

/-- C10: disconnect calls for an IP with no table entry decrement the
global counter unconditionally and leave the table unchanged, so `n` such
calls return `initial − n` from `tbg_rate_limit_global_connections` —
strictly below the admitted count for `n ≥ 1` and below zero once `n`
exceeds the initial count. -/
theorem c10_disconnect_unknown_ip (s : RateLimitState) (ip : String) (n : Nat)
    (h : s.ip_table ip = none) :
    tbg_rate_limit_global_connections (disconnectRepeat s ip n)
        = s.g_total_connections - n
    ∧ (disconnectRepeat s ip n).ip_table = s.ip_table
    ∧ (0 < n → tbg_rate_limit_global_connections (disconnectRepeat s ip n)
        < s.g_total_connections)
    ∧ (s.g_total_connections < n →
        tbg_rate_limit_global_connections (disconnectRepeat s ip n) < 0) := by
  have main : tbg_rate_limit_global_connections (disconnectRepeat s ip n)
        = s.g_total_connections - n
      ∧ (disconnectRepeat s ip n).ip_table = s.ip_table := by
    induction n with
    | zero =>
      refine ⟨?_, rfl⟩
      simp [disconnectRepeat, tbg_rate_limit_global_connections]
    | succ n ih =>
      obtain ⟨h1, h2⟩ := ih
      simp only [disconnectRepeat, tbg_rate_limit_disconnect]
      have hlook : (disconnectRepeat s ip n).ip_table ip = none := by
        rw [h2, h]
      rw [hlook]
      refine ⟨?_, h2⟩
      simp only [tbg_rate_limit_global_connections] at h1 ⊢
      push_cast
      omega
  refine ⟨main.1, main.2, fun hn => ?_, fun hn => ?_⟩
  · rw [main.1]; omega
  · rw [main.1]; omega

/-- C10 witness: with 2 admitted connections, three disconnects for a
never-admitted IP drive the global counter to −1, below zero. -/
theorem c10_disconnect_unknown_ip_witness :
    tbg_rate_limit_global_connections
      (disconnectRepeat ⟨fun _ => none, 2, ⟨10, 50, 3, 5, 1000, 100, 100000, 300⟩⟩
        "10.0.0.9" 3) = -1 := by
  have h := c10_disconnect_unknown_ip
    ⟨fun _ => none, 2, ⟨10, 50, 3, 5, 1000, 100, 100000, 300⟩⟩ "10.0.0.9" 3 rfl
  have h1 := h.1
  norm_num at h1 ⊢
  exact h1

end Tbg

namespace Tbg

/-! ## Theorems for claim C4 -/

theorem update_ip_table_same (t : String → Option ip_rate_entry) (ip : String)
    (e : ip_rate_entry) : update_ip_table t ip e ip = some e := by
  simp [update_ip_table]

theorem update_ip_table_idem (t : String → Option ip_rate_entry) (ip : String)
    (e1 e2 : ip_rate_entry) :
    update_ip_table (update_ip_table t ip e1) ip e2 = update_ip_table t ip e2 := by
  funext k
  unfold update_ip_table
  by_cases h : k = ip <;> simp [h]

theorem bucket_consume_now (b : rate_bucket) (now : Int) (h : b.last_refill = now) :
    bucket_consume b now =
      if b.tokens = 0 then (false, b)
      else (true, { b with tokens := b.tokens - 1 }) := by
  have hrefill : bucket_refill b now = b := by
    simp only [bucket_refill, h]
    rw [if_pos (by omega : now - now ≤ 0)]
  simp only [bucket_consume, hrefill]

/-- Evaluation of `tbg_rate_limit_connect` on a state that already holds
an entry for the IP: not banned, caps clear, bucket already refilled at
`now`. The call succeeds iff the connect bucket still has tokens. -/
theorem connect_step_found {s : RateLimitState} {ip : String} {now : Int}
    {e : ip_rate_entry}
    (hlook : s.ip_table ip = some e)
    (hsb : e.softban_until = 0)
    (hglob : s.g_total_connections < s.g_config.global_max_connections)
    (hcap : e.active_connections < s.g_config.max_connections_per_ip)
    (hlr : e.connect_bucket.last_refill = now) :
    tbg_rate_limit_connect s ip now =
      (if e.connect_bucket.tokens = 0 then
        (false, ⟨update_ip_table s.ip_table ip
          ⟨e.connect_bucket, e.active_connections, e.first_seen, now, e.softban_until⟩,
          s.g_total_connections, s.g_config⟩)
      else
        (true, ⟨update_ip_table s.ip_table ip
          ⟨⟨e.connect_bucket.tokens - 1, e.connect_bucket.max_tokens,
            e.connect_bucket.refill_per_min, e.connect_bucket.last_refill⟩,
           e.active_connections + 1, e.first_seen, now, e.softban_until⟩,
          s.g_total_connections + 1, s.g_config⟩)) := by
  have hg : ¬(s.g_total_connections ≥ s.g_config.global_max_connections) := by omega
  simp only [tbg_rate_limit_connect, get_or_create_ip_entry, hlook]
  rw [if_neg hg]
  try dsimp only
  have hsb1 : ¬(e.softban_until > 0 ∧ now < e.softban_until) := by
    rw [hsb]; omega
  rw [if_neg hsb1]
  have hsb2 : ¬(e.softban_until > 0 ∧ e.softban_until ≤ now) := by
    rw [hsb]; omega
  rw [if_neg hsb2]
  try dsimp only
  have hc : ¬(e.active_connections ≥ s.g_config.max_connections_per_ip) := by omega
  rw [if_neg hc]
  rw [bucket_consume_now _ _ (by exact hlr)]
  try dsimp only
  by_cases ht : e.connect_bucket.tokens = 0
  · rw [if_pos ht, if_pos ht]
    simp only [update_ip_table_idem]
    simp
  · rw [if_neg ht, if_neg ht]
    simp only [update_ip_table_idem]
    simp

/-- Evaluation of `tbg_rate_limit_connect` for an IP with no entry yet:
a fresh entry starts with a full bucket of
`connections_per_ip_per_minute` tokens, so with a positive configured
rate the call consumes one token and succeeds. -/
theorem connect_step_fresh {s : RateLimitState} {ip : String} {now : Int}
    (hfresh : s.ip_table ip = none)
    (hglob : s.g_total_connections < s.g_config.global_max_connections)
    (hcap : 0 < s.g_config.max_connections_per_ip)
    (hpos : intToU32 s.g_config.connections_per_ip_per_minute ≠ 0) :
    tbg_rate_limit_connect s ip now =
      (true, ⟨update_ip_table s.ip_table ip
        ⟨⟨intToU32 s.g_config.connections_per_ip_per_minute - 1,
          intToU32 s.g_config.connections_per_ip_per_minute,
          intToU32 s.g_config.connections_per_ip_per_minute, now⟩,
         1, now, now, 0⟩,
        s.g_total_connections + 1, s.g_config⟩) := by
  have hg : ¬(s.g_total_connections ≥ s.g_config.global_max_connections) := by omega
  simp only [tbg_rate_limit_connect, get_or_create_ip_entry, hfresh]
  rw [if_neg hg]
  try dsimp only
  rw [if_neg (by omega : ¬((0 : Int) > 0 ∧ now < 0))]
  rw [if_neg (by omega : ¬((0 : Int) > 0 ∧ (0 : Int) ≤ now))]
  try dsimp only
  rw [if_neg (by omega : ¬((0 : Int) ≥ s.g_config.max_connections_per_ip))]
  rw [bucket_consume_now
    (bucket_init (intToU32 s.g_config.connections_per_ip_per_minute)
      (intToU32 s.g_config.connections_per_ip_per_minute) now) now rfl]
  simp only [bucket_init]
  rw [if_neg hpos]
  simp only [update_ip_table_idem]
  simp

end Tbg

namespace Tbg

theorem disconnect_found {s : RateLimitState} {ip : String} {e : ip_rate_entry}
    (h : s.ip_table ip = some e) :
    tbg_rate_limit_disconnect s ip =
      ⟨update_ip_table s.ip_table ip
        (if e.active_connections ≤ 0 then
          ⟨e.connect_bucket, 0, e.first_seen, e.last_seen, e.softban_until⟩
        else
          ⟨e.connect_bucket, e.active_connections - 1, e.first_seen, e.last_seen,
           e.softban_until⟩),
       s.g_total_connections - 1, s.g_config⟩ := by
  simp only [tbg_rate_limit_disconnect]
  try dsimp only
  rw [h]

theorem c4Entry_succ (now : Int) (k : Nat) :
    (⟨⟨(c4Entry now k).connect_bucket.tokens - 1,
       (c4Entry now k).connect_bucket.max_tokens,
       (c4Entry now k).connect_bucket.refill_per_min,
       (c4Entry now k).connect_bucket.last_refill⟩,
      (c4Entry now k).active_connections + 1,
      (c4Entry now k).first_seen, now, (c4Entry now k).softban_until⟩ : ip_rate_entry)
      = c4Entry now (k + 1) := by
  have h1 : (10 : Nat) - k - 1 = 10 - (k + 1) := by omega
  have h2 : ((k : Int)) + 1 = ((k + 1 : Nat) : Int) := by push_cast; ring
  simp only [c4Entry]
  rw [h1, h2]

theorem c4_iter (s : RateLimitState) (ip : String) (now : Int)
    (hfresh : s.ip_table ip = none)
    (hcfg : s.g_config.connections_per_ip_per_minute = 10)
    (hglob : s.g_total_connections + 10 < s.g_config.global_max_connections)
    (hcap : 10 < s.g_config.max_connections_per_ip) :
    ∀ k, 1 ≤ k → k ≤ 10 →
      connectRepeat s ip now k =
        (List.replicate k true,
         ⟨update_ip_table s.ip_table ip (c4Entry now k),
          s.g_total_connections + k, s.g_config⟩) := by
  intro k
  induction k with
  | zero => intro h1 _; exact absurd h1 (by omega)
  | succ k ih =>
    intro _ h2
    by_cases hk : k = 0
    · subst hk
      simp only [connectRepeat]
      rw [connect_step_fresh hfresh (by omega) (by omega)
        (by rw [hcfg]; decide)]
      have hM : intToU32 s.g_config.connections_per_ip_per_minute = 10 := by
        rw [hcfg]; decide
      simp only [hM, c4Entry]
      norm_num
    · have hk1 : 1 ≤ k := by omega
      have hk9 : k ≤ 9 := by omega
      simp only [connectRepeat]
      rw [ih hk1 (by omega)]
      try dsimp only
      rw [connect_step_found (update_ip_table_same s.ip_table ip (c4Entry now k))
        (show (c4Entry now k).softban_until = 0 from rfl)
        (by show s.g_total_connections + (k : Int) <
              s.g_config.global_max_connections
            omega)
        (by show (c4Entry now k).active_connections <
              s.g_config.max_connections_per_ip
            simp only [c4Entry]
            omega)
        (show (c4Entry now k).connect_bucket.last_refill = now from rfl)]
      have htok : ¬((c4Entry now k).connect_bucket.tokens = 0) := by
        simp only [c4Entry]; omega
      rw [if_neg htok]
      rw [c4Entry_succ now k]
      simp only [update_ip_table_idem]
      have hg : s.g_total_connections + (k : Int) + 1
          = s.g_total_connections + ((k + 1 : Nat) : Int) := by push_cast; ring
      rw [hg, List.replicate_succ']

/-- C4: with `connections_per_ip_per_minute = 10` and no time elapsing,
for a fresh non-soft-banned IP whose global and per-IP concurrent caps
are not reached, the first 10 connect calls return true and the 11th
returns false; a subsequent disconnect decrements both the per-IP
`active_connections` counter (10 to 9) and the global counter, and
the per-IP counter is clamped so it never drops below zero. -/
theorem c4_rate_limiter (s : RateLimitState) (ip : String) (now : Int)
    (hfresh : s.ip_table ip = none)
    (hcfg : s.g_config.connections_per_ip_per_minute = 10)
    (hglob : s.g_total_connections + 10 < s.g_config.global_max_connections)
    (hcap : 10 < s.g_config.max_connections_per_ip) :
    (connectRepeat s ip now 10).1 = List.replicate 10 true
    ∧ (tbg_rate_limit_connect (connectRepeat s ip now 10).2 ip now).1 = false
    ∧ (tbg_rate_limit_connect (connectRepeat s ip now 10).2 ip now).2.ip_table ip
        = some (c4Entry now 10)
    ∧ (tbg_rate_limit_connect (connectRepeat s ip now 10).2 ip now).2.g_total_connections
        = s.g_total_connections + 10
    ∧ (tbg_rate_limit_disconnect
          (tbg_rate_limit_connect (connectRepeat s ip now 10).2 ip now).2 ip).g_total_connections
        = s.g_total_connections + 9
    ∧ (tbg_rate_limit_disconnect
          (tbg_rate_limit_connect (connectRepeat s ip now 10).2 ip now).2 ip).ip_table ip
        = some ⟨⟨0, 10, 10, now⟩, 9, now, now, 0⟩
    ∧ (∀ t : RateLimitState, ∀ ip' : String, ∀ e : ip_rate_entry,
        t.ip_table ip' = some e → 0 ≤ e.active_connections →
        ∀ e', (tbg_rate_limit_disconnect t ip').ip_table ip' = some e' →
          0 ≤ e'.active_connections) := by
  have hiter := c4_iter s ip now hfresh hcfg hglob hcap 10 (by omega) (by omega)
  rw [hiter]
  try dsimp only
  rw [connect_step_found (update_ip_table_same s.ip_table ip (c4Entry now 10))
    (show (c4Entry now 10).softban_until = 0 from rfl)
    (by show s.g_total_connections + ((10 : Nat) : Int) <
          s.g_config.global_max_connections
        omega)
    (by show (c4Entry now 10).active_connections <
          s.g_config.max_connections_per_ip
        simp only [c4Entry]
        omega)
    (show (c4Entry now 10).connect_bucket.last_refill = now from rfl)]
  have htok : (c4Entry now 10).connect_bucket.tokens = 0 := by
    simp only [c4Entry]
  rw [if_pos htok]
  try dsimp only
  simp only [update_ip_table_idem]
  have hfix : (⟨(c4Entry now 10).connect_bucket, (c4Entry now 10).active_connections,
      (c4Entry now 10).first_seen, now, (c4Entry now 10).softban_until⟩ : ip_rate_entry)
      = c4Entry now 10 := rfl
  rw [hfix]
  rw [disconnect_found (update_ip_table_same s.ip_table ip (c4Entry now 10))]
  have hact : ¬((c4Entry now 10).active_connections ≤ 0) := by
    simp only [c4Entry]; omega
  rw [if_neg hact]
  try dsimp only
  simp only [update_ip_table_idem, update_ip_table_same]
  refine ⟨trivial, trivial, trivial, by push_cast; ring, by push_cast; ring, ?_, ?_⟩
  · have hfin : (⟨(c4Entry now 10).connect_bucket,
        (c4Entry now 10).active_connections - 1, (c4Entry now 10).first_seen,
        (c4Entry now 10).last_seen, (c4Entry now 10).softban_until⟩ : ip_rate_entry)
        = ⟨⟨0, 10, 10, now⟩, 9, now, now, 0⟩ := by
      simp only [c4Entry, ip_rate_entry.mk.injEq, rate_bucket.mk.injEq]
      norm_num
    rw [hfin]
  · intro t ip' e hlook hge e' hlook'
    rw [disconnect_found hlook] at hlook'
    dsimp only at hlook'
    rw [update_ip_table_same] at hlook'
    have he' := Option.some.inj hlook'
    subst he'
    by_cases ha : e.active_connections ≤ 0
    · rw [if_pos ha]
    · rw [if_neg ha]
      try dsimp only
      omega

end Tbg

namespace Tbg

/-- C4 witness: a concrete limiter (defaults, rate 10/min) at one
instant: ten admitted connects for a fresh IP, then a rejection. -/
theorem c4_rate_limiter_witness :
    (connectRepeat ⟨fun _ => none, 0, ⟨10, 50, 3, 5, 1000, 100, 100000, 300⟩⟩
        "1.2.3.4" 500 10).1 = List.replicate 10 true
    ∧ (tbg_rate_limit_connect
        (connectRepeat ⟨fun _ => none, 0, ⟨10, 50, 3, 5, 1000, 100, 100000, 300⟩⟩
          "1.2.3.4" 500 10).2 "1.2.3.4" 500).1 = false := by
  have h := c4_rate_limiter ⟨fun _ => none, 0, ⟨10, 50, 3, 5, 1000, 100, 100000, 300⟩⟩
    "1.2.3.4" 500 rfl rfl (by decide) (by decide)
  exact ⟨h.1, h.2.1⟩

end Tbg

namespace Tbg

/-! ## Theorems for claim C5 -/

theorem push_full {ring : event_ring} {json : List Nat} (hjson : json ≠ [])
    (hfull : ∀ i, (ring.slots i).state ≠ SlotState.empty) :
    tbg_event_ring_push ring json =
      (false, { ring with
        write_pos := (ring.write_pos + 1) % 18446744073709551616,
        events_dropped := (ring.events_dropped + 1) % 18446744073709551616 }) := by
  simp only [tbg_event_ring_push]
  rw [if_neg hjson]
  try dsimp only
  rw [if_neg (hfull _)]

theorem pushRepeat_fill (json : List Nat) (hjson : json ≠ []) :
    ∀ j, j ≤ 4096 →
      (pushRepeat tbg_event_ring_init json j).write_pos = j ∧
      (pushRepeat tbg_event_ring_init json j).events_dropped = 0 ∧
      (∀ i : Fin 4096, ((pushRepeat tbg_event_ring_init json j).slots i).state
        = if (i : Nat) < j then SlotState.ready else SlotState.empty) := by
  intro j
  induction j with
  | zero =>
    intro _
    refine ⟨rfl, rfl, fun i => ?_⟩
    simp [pushRepeat, tbg_event_ring_init]
  | succ j ih =>
    intro hj
    obtain ⟨hw, hd, hs⟩ := ih (by omega)
    have hjlt : j < 4096 := by omega
    simp only [pushRepeat, tbg_event_ring_push]
    rw [if_neg hjson]
    try dsimp only
    simp only [hw]
    have hidx : (⟨j % 4096, Nat.mod_lt j (by norm_num)⟩ : Fin 4096)
        = ⟨j, hjlt⟩ := by
      apply Fin.ext
      simp [Nat.mod_eq_of_lt hjlt]
    rw [hidx]
    have hst : ((pushRepeat tbg_event_ring_init json j).slots ⟨j, hjlt⟩).state
        = SlotState.empty := by
      rw [hs ⟨j, hjlt⟩]
      simp
    rw [if_pos hst]
    try dsimp only
    refine ⟨by omega, hd, fun i => ?_⟩
    rw [Function.update_apply]
    by_cases hi : i = ⟨j, hjlt⟩
    · subst hi
      simp
    · rw [if_neg hi, hs i]
      have hij : (i : Nat) ≠ j := by
        intro hc
        exact hi (Fin.ext hc)
      by_cases hlt : (i : Nat) < j
      · rw [if_pos hlt, if_pos (by omega)]
      · rw [if_neg hlt, if_neg (by omega)]

theorem pushRepeat_drop (r : event_ring) (json : List Nat) (hjson : json ≠ [])
    (hfull : ∀ i, (r.slots i).state ≠ SlotState.empty) :
    ∀ m, r.events_dropped + m < 18446744073709551616 →
      (pushRepeat r json m).events_dropped = r.events_dropped + m ∧
      (pushRepeat r json m).slots = r.slots := by
  intro m
  induction m with
  | zero => intro _; exact ⟨rfl, rfl⟩
  | succ m ih =>
    intro hm
    obtain ⟨hd, hs⟩ := ih (by omega)
    simp only [pushRepeat]
    rw [push_full hjson (by intro i; rw [hs]; exact hfull i)]
    try dsimp only
    refine ⟨?_, hs⟩
    rw [hd]
    omega

theorem pushRepeat_add (r : event_ring) (json : List Nat) (a b : Nat) :
    pushRepeat r json (a + b) = pushRepeat (pushRepeat r json a) json b := by
  induction b with
  | zero => rfl
  | succ b ih =>
    rw [show a + (b + 1) = (a + b) + 1 from rfl]
    simp only [pushRepeat, ih]

/-- C5: pushing into a ring whose slots are all occupied (drainer
inactive) fails, bumps only the drop counter — by exactly one while the
counter does not wrap — and leaves every slot untouched; hence from an
empty ring of capacity 4096, after `4096 + k` pushes the drop counter
equals `k`. -/
theorem c5_ring_full_drops :
    (∀ ring json, json ≠ [] → (∀ i, (ring.slots i).state ≠ SlotState.empty) →
      (tbg_event_ring_push ring json).1 = false ∧
      ((tbg_event_ring_push ring json).2).slots = ring.slots ∧
      ((tbg_event_ring_push ring json).2).events_dropped
        = (ring.events_dropped + 1) % 18446744073709551616 ∧
      (ring.events_dropped + 1 < 18446744073709551616 →
        ((tbg_event_ring_push ring json).2).events_dropped
          = ring.events_dropped + 1))
    ∧ (∀ json k, json ≠ [] → k < 18446744073709551616 →
      (pushRepeat tbg_event_ring_init json (4096 + k)).events_dropped = k) := by
  constructor
  · intro ring json hjson hfull
    rw [push_full hjson hfull]
    exact ⟨rfl, rfl, rfl, fun h => by dsimp only; omega⟩
  · intro json k hjson hk
    obtain ⟨hw, hd, hs⟩ := pushRepeat_fill json hjson 4096 (le_refl _)
    rw [pushRepeat_add]
    have hfull : ∀ i, ((pushRepeat tbg_event_ring_init json 4096).slots i).state
        ≠ SlotState.empty := by
      intro i
      rw [hs i]
      simp [i.isLt]
    obtain ⟨hd2, _⟩ := pushRepeat_drop _ json hjson hfull k (by rw [hd]; omega)
    rw [hd2, hd]
    omega

/-- C5 witness: with every slot READY, one more push fails; and
4098 pushes from an empty ring drop exactly 2 events. -/
theorem c5_ring_full_drops_witness :
    (tbg_event_ring_push
        ⟨fun _ => ⟨SlotState.ready, 1, [104]⟩, 4096, 0, 4096, 0, 0, 0⟩ [104]).1 = false
    ∧ (pushRepeat tbg_event_ring_init [104] 4098).events_dropped = 2 := by
  have h := c5_ring_full_drops
  refine ⟨(h.1 ⟨fun _ => ⟨SlotState.ready, 1, [104]⟩, 4096, 0, 4096, 0, 0, 0⟩
    [104] (by decide) (fun i => by simp)).1, ?_⟩
  exact h.2 [104] 2 (by decide) (by norm_num)

end Tbg

namespace Tbg

/-! ## Theorems for claim C6 -/

theorem recv_msg_cons (t b0 b1 b2 b3 : Nat) (rest : List Nat) :
    recv_msg (84 :: 66 :: 71 :: 82 :: 1 :: t :: 0 :: 0 ::
        b0 :: b1 :: b2 :: b3 :: rest) =
      (if 4194304 < 16777216 * b0 + 65536 * b1 + 256 * b2 + b3 then (none, rest)
       else if rest.length < 16777216 * b0 + 65536 * b1 + 256 * b2 + b3 then
         (none, [])
       else (some (t, rest.take (16777216 * b0 + 65536 * b1 + 256 * b2 + b3)),
             rest.drop (16777216 * b0 + 65536 * b1 + 256 * b2 + b3))) := by
  simp only [recv_msg, TBG_RELAY_MAGIC, List.length_cons, List.take_succ_cons,
    List.take_zero, List.drop_succ_cons, List.drop_zero, List.getD_cons_zero,
    List.getD_cons_succ]
  norm_num

/-- C6: decoding the encoding of any message type `t` (a byte) and
payload `p` of at most 4 MiB yields exactly `(t, p)` and consumes exactly
the frame; and any 12-byte header with a wrong magic, a version other
than 1, or a length field above 4 MiB makes `recv_msg` fail after
consuming exactly the 12 header bytes — no payload byte is read. -/
theorem c6_relay_framing :
    (∀ t p extra, t < 256 → (∀ b ∈ p, b < 256) → p.length ≤ 4194304 →
      recv_msg (send_msg t p ++ extra) = (some (t, p), extra))
    ∧ (∀ stream, 12 ≤ stream.length →
        (stream.take 4 ≠ TBG_RELAY_MAGIC ∨ stream.getD 4 0 ≠ 1 ∨
         4194304 < 16777216 * stream.getD 8 0 + 65536 * stream.getD 9 0 +
           256 * stream.getD 10 0 + stream.getD 11 0) →
        recv_msg stream = (none, stream.drop 12)) := by
  constructor
  · intro t p extra ht hp hplen
    have hstream : send_msg t p ++ extra =
        84 :: 66 :: 71 :: 82 :: 1 :: t :: 0 :: 0 ::
        (p.length / 16777216 % 256) :: (p.length / 65536 % 256) ::
        (p.length / 256 % 256) :: (p.length % 256) :: (p ++ extra) := by
      simp [send_msg, TBG_RELAY_MAGIC, be32]
    rw [hstream, recv_msg_cons]
    have hlen : 16777216 * (p.length / 16777216 % 256) +
        65536 * (p.length / 65536 % 256) + 256 * (p.length / 256 % 256) +
        p.length % 256 = p.length := by omega
    rw [hlen]
    rw [if_neg (by omega)]
    rw [if_neg (by simp only [List.length_append]; omega)]
    rw [List.take_left, List.drop_left]
  · intro stream h12 hbad
    match stream, h12 with
    | m0 :: m1 :: m2 :: m3 :: v :: t :: r0 :: r1 :: b0 :: b1 :: b2 :: b3 :: rest, _ =>
      simp only [recv_msg, TBG_RELAY_MAGIC, List.length_cons, List.take_succ_cons,
        List.take_zero, List.drop_succ_cons, List.drop_zero, List.getD_cons_zero,
        List.getD_cons_succ] at hbad ⊢
      have hlen12 : ¬(rest.length + 12 < 12) := by omega
      rw [if_neg (by omega : ¬(rest.length + 1 + 1 + 1 + 1 + 1 + 1 + 1 + 1 + 1 + 1 + 1 + 1 < 12))]
      by_cases hm : ([m0, m1, m2, m3] : List Nat) ≠ [84, 66, 71, 82]
      · rw [if_pos hm]
      · rw [if_neg hm]
        by_cases hv : v ≠ 1
        · rw [if_pos hv]
        · rw [if_neg hv]
          have hlenbad : 4194304 < 16777216 * b0 + 65536 * b1 + 256 * b2 + b3 := by
            rcases hbad with h | h | h
            · exact absurd h hm
            · exact absurd h hv
            · exact h
          rw [if_pos hlenbad]

/-- C6 witness: a TEMPLATE frame (type 1) with payload `{"job":1}` round
trips, and a frame whose magic's first byte is flipped is rejected with
exactly the header consumed. -/
theorem c6_relay_framing_witness :
    recv_msg (send_msg 1 [123, 34, 106, 111, 98, 34, 58, 49, 125])
      = (some (1, [123, 34, 106, 111, 98, 34, 58, 49, 125]), [])
    ∧ recv_msg [85, 66, 71, 82, 1, 1, 0, 0, 0, 0, 0, 2, 55, 56]
      = (none, [55, 56]) := by
  constructor
  · have h := c6_relay_framing.1 1 [123, 34, 106, 111, 98, 34, 58, 49, 125] []
      (by norm_num) (by decide) (by norm_num)
    simpa using h
  · exact c6_relay_framing.2 [85, 66, 71, 82, 1, 1, 0, 0, 0, 0, 0, 2, 55, 56]
      (by norm_num) (by decide)

end Tbg

namespace Tbg

/-! ## Theorems for claims C7 and C8 -/

/-- C7: a received TEMPLATE payload (with a callback set) is delivered
iff the client is not in independent mode — in particular never while in
independent mode; when the heartbeat monitor sees a connected client
silent past `failover_timeout`, it sets `independent_mode`, closes the fd
and clears `connected`; and a successful reconnect clears
`independent_mode`, after which template delivery resumes. -/
theorem c7_relay_failover :
    (∀ s pl now, (receiver_dispatch_template s (some pl) true now).2 = true
        ↔ s.independent_mode = false)
    ∧ (∀ s payload cbSet now, s.independent_mode = true →
        (receiver_dispatch_template s payload cbSet now).2 = false)
    ∧ (∀ s now, s.connected = true → s.fdOpen = true →
        s.independent_mode = false →
        s.failover_timeout < now - s.last_heartbeat →
        heartbeat_monitor_check s now =
          { s with independent_mode := true, fdOpen := false, connected := false })
    ∧ (∀ s now, (receiver_reconnect s now).independent_mode = false
        ∧ (∀ pl now2, (receiver_dispatch_template (receiver_reconnect s now)
            (some pl) true now2).2 = true)) := by
  refine ⟨?_, ?_, ?_, ?_⟩
  · intro s pl now
    by_cases hi : s.independent_mode = false
    · simp [receiver_dispatch_template, hi]
    · simp [receiver_dispatch_template, hi]
  · intro s payload cbSet now hi
    simp [receiver_dispatch_template, hi]
  · intro s now hconn hfd hind helapsed
    simp only [heartbeat_monitor_check]
    rw [if_pos hconn]
    try dsimp only
    rw [if_pos ⟨helapsed, hind⟩]
    rw [if_pos hfd]
  · intro s now
    refine ⟨rfl, fun pl now2 => ?_⟩
    simp [receiver_dispatch_template, receiver_reconnect]

/-- C7 witness: a connected, non-independent client with an open fd and
a stale heartbeat fails over; before that, templates are delivered. -/
theorem c7_relay_failover_witness :
    (receiver_dispatch_template ⟨true, 10, 100, true, false⟩ (some [1]) true 105).2
      = true
    ∧ heartbeat_monitor_check ⟨true, 10, 100, true, false⟩ 120
      = ⟨false, 10, 100, false, true⟩ := by
  constructor
  · exact (c7_relay_failover.1 ⟨true, 10, 100, true, false⟩ [1] 105).mpr rfl
  · have h := c7_relay_failover.2.2.1 ⟨true, 10, 100, true, false⟩ 120 rfl rfl rfl
      (by norm_num)
    simpa using h

/-- C8 (amended): on REGISTER the peer's `last_heartbeat` is always
refreshed, but the payload is copied into `region` (truncated at the
first NUL and at 31 bytes) only when its length is strictly below 32;
payloads of 32 bytes or more leave `region` unchanged. -/
theorem c8_register (peer : tbg_relay_peer) (pl : List Nat) (now : Int) :
    (peer_handler_register peer (some pl) now).last_heartbeat = now
    ∧ (pl.length < 32 → (peer_handler_register peer (some pl) now).region
        = (pl.takeWhile (fun c => c != 0)).take 31)
    ∧ (32 ≤ pl.length → (peer_handler_register peer (some pl) now).region
        = peer.region)
    ∧ peer_handler_register peer none now = ⟨peer.region, now⟩ := by
  refine ⟨?_, fun hlt => ?_, fun hge => ?_, rfl⟩
  · simp only [peer_handler_register]
    split <;> rfl
  · simp only [peer_handler_register]
    rw [if_pos hlt]
  · simp only [peer_handler_register]
    rw [if_neg (by omega)]

/-- C8 witness: a 7-byte payload `relay-1` is copied into the region and
the heartbeat is refreshed. -/
theorem c8_register_witness :
    (peer_handler_register ⟨[117, 110, 107, 110, 111, 119, 110], 0⟩
        (some [114, 101, 108, 97, 121, 45, 49]) 5)
      = ⟨[114, 101, 108, 97, 121, 45, 49], 5⟩ := by
  have h := c8_register ⟨[117, 110, 107, 110, 111, 119, 110], 0⟩
    [114, 101, 108, 97, 121, 45, 49] 5
  have h1 := h.1
  have h2 := h.2.1 (by norm_num)
  have hr : ((([114, 101, 108, 97, 121, 45, 49] : List Nat)).takeWhile
      (fun c => c != 0)).take 31 = [114, 101, 108, 97, 121, 45, 49] := by decide
  rw [hr] at h2
  cases hp : peer_handler_register ⟨[117, 110, 107, 110, 111, 119, 110], 0⟩
      (some [114, 101, 108, 97, 121, 45, 49]) 5 with
  | mk r hb =>
    rw [hp] at h1 h2
    simp at h1 h2
    rw [h1, h2]

/-- C8 counterexample: a 32-byte REGISTER payload (32 times `a`) is NOT
copied — the region keeps its previous value `unknown` — whereas the
claim demands the truncated payload (31 times `a`); `last_heartbeat` is
still refreshed. -/
theorem c8_counterexample :
    peer_handler_register ⟨[117, 110, 107, 110, 111, 119, 110], 0⟩
        (some (List.replicate 32 97)) 5
      = ⟨[117, 110, 107, 110, 111, 119, 110], 5⟩
    ∧ ((List.replicate 32 97).take 31
        ≠ ([117, 110, 107, 110, 111, 119, 110] : List Nat)) := by
  exact ⟨by decide, by decide⟩

end Tbg
